import Mathlib

/-!
Shallow embedding of the hand-landmark sign classifier inference path of the
ASL learning platform repository, covering:

- the feature flattener and landmark validation
  (sagemaker-deploy/inference.py, predict_fn / input_fn;
   backend/training/inference_server.py, predict);
- the softmax normalization (sagemaker-deploy/inference.py lines 119-122,
  torch.softmax in the backend server);
- the letter-restriction selection scan and the global argmax fallback
  (inference_server.py lines 153-174, inference.py lines 124-139);
- the letter-only probability map and response formatting;
- the MLP classifier with batch-norm, ReLU and dropout (model.py,
  ASLClassifier) and the LSTM variant (model.py, ASLLSTMClassifier.forward);
- the FastAPI endpoint handlers predict and get_labels of
  inference_server.py, including the model-not-loaded 503 path and the
  blanket `except Exception` that converts every exception raised inside the
  try block into a 500 response.

Machine floats are modelled by exact rationals; the transcendental functions
exp and sqrt used by the framework are abstract parameters (e, sqrtA), since
only their qualitative properties (positivity of exp) matter for the stated
claims.  Randomness consumed by dropout is an explicit mask-stream parameter.
-/

namespace ASL

/-- The 26 uppercase letters: `ALPHABET_LETTERS = list('ABC...XYZ')` in
sagemaker-deploy/inference.py and `alphabet_letters = set('ABC...XYZ')` in
backend/training/inference_server.py. -/
def ALPHABET_LETTERS : List String :=
  ["A", "B", "C", "D", "E", "F", "G", "H", "I", "J", "K", "L", "M",
   "N", "O", "P", "Q", "R", "S", "T", "U", "V", "W", "X", "Y", "Z"]

/-- Membership test `label in alphabet_letters` / `label in ALPHABET_LETTERS`. -/
def isLetter (s : String) : Bool :=
  ALPHABET_LETTERS.contains s

/-- Python exceptions that can be raised inside the predict handler of
inference_server.py: fastapi.HTTPException (carrying a status code and a
detail string) and ValueError (raised by numpy on ragged arrays). -/
inductive PyExc where
  | httpExc (status : Nat) (detail : String)
  | valueError (msg : String)
deriving DecidableEq

/-- Rendering `str(e)` of an exception.  For starlette HTTPException this is
the `__str__` method, which prints "status: detail". -/
def pyExcStr : PyExc → String
  | .httpExc s d => toString s ++ ": " ++ d
  | .valueError m => m

/-- The per-landmark flattening loop of sagemaker-deploy/inference.py,
predict_fn lines 99-104: each landmark must decompose into exactly 3
coordinates, otherwise a ValueError naming the actual arity is raised;
on success the coordinates are concatenated in landmark order. -/
def flattenLandmarks : List (List ℚ) → Except String (List ℚ)
  | [] => .ok []
  | lm :: rest =>
    if lm.length ≠ 3 then
      .error ("Each landmark must have 3 coordinates (x, y, z), got "
        ++ toString lm.length)
    else
      match flattenLandmarks rest with
      | .ok flat => .ok (lm ++ flat)
      | .error e => .error e

/-- The numpy call `np.array(input_data.landmarks).flatten()` of
inference_server.py line 137: rows of equal length flatten to the
row-major concatenation; ragged rows make np.array raise a ValueError. -/
def npFlatten (landmarks : List (List ℚ)) : Except PyExc (List ℚ) :=
  if landmarks.all (fun row => row.length == (landmarks.headD []).length) then
    .ok landmarks.flatten
  else
    .error (.valueError "setting an array element with a sequence")

/-- The call np.max over a nonempty vector. -/
def npMax (l : List ℚ) : ℚ :=
  l.foldl max (l.headD 0)

/-- Softmax from sagemaker-deploy/inference.py lines 119-122 (torch.softmax on
the backend server computes the same stabilized transform): the maximum logit
is subtracted, each shifted logit is exponentiated and divided by the sum of
the exponentials.  The machine exponential is the abstract parameter e. -/
def softmax (e : ℚ → ℚ) (logits : List ℚ) : List ℚ :=
  let exps := logits.map (fun z => e (z - npMax logits))
  exps.map (fun x => x / exps.sum)

/-- One iteration of the letter-restriction scan of inference_server.py lines
159-164 (equally, inference.py lines 128-132): index i updates the running
best exactly when its label is an A-Z letter and its probability strictly
exceeds the best probability seen so far. -/
def letterScanStep (idxToLabel : List String) (probs : List ℚ)
    (acc : Int × ℚ) (i : ℕ) : Int × ℚ :=
  if isLetter (idxToLabel.getD i "") ∧ acc.2 < probs.getD i 0 then
    ((i : Int), probs.getD i 0)
  else acc

/-- The full scan: `best_letter_idx = -1; best_letter_prob = -1.0` followed by
the loop `for i in range(len(labels idx_to_label))`. -/
def bestLetterScan (idxToLabel : List String) (probs : List ℚ) : Int × ℚ :=
  (List.range idxToLabel.length).foldl (letterScanStep idxToLabel probs) (-1, -1)

/-- The call np.argmax (equally torch max over dim 1): index of the first
occurrence of the maximum value. -/
def npArgmax (probs : List ℚ) : ℕ :=
  (List.range probs.length).foldl
    (fun acc i => if probs.getD acc 0 < probs.getD i 0 then i else acc) 0

/-- Selection of the returned sign and confidence, inference_server.py lines
166-174 (inference.py lines 134-139): if the scan found no letter the code
falls back to the unrestricted argmax over all classes, otherwise the best
letter index and its probability are used. -/
def selectSign (idxToLabel : List String) (probs : List ℚ) : String × ℚ :=
  let scan := bestLetterScan idxToLabel probs
  if scan.1 = -1 then
    (idxToLabel.getD (npArgmax probs) "", probs.getD (npArgmax probs) 0)
  else
    (idxToLabel.getD scan.1.toNat "", scan.2)

/-- One entry of the letter-only probability map: index i contributes the pair
(label, probability) exactly when its label is an A-Z letter. -/
def letterEntry (idxToLabel : List String) (probs : List ℚ) (i : ℕ) :
    Option (String × ℚ) :=
  if isLetter (idxToLabel.getD i "") then
    some (idxToLabel.getD i "", probs.getD i 0)
  else none

/-- The dict comprehension of inference_server.py lines 177-181 (inference.py
lines 142-146): the probability map restricted to A-Z labelled classes,
represented as an association list in index order. -/
def letterProbs (idxToLabel : List String) (probs : List ℚ) : List (String × ℚ) :=
  (List.range idxToLabel.length).filterMap (letterEntry idxToLabel probs)

/-- The response envelope PredictionOutput of inference_server.py. -/
structure PredictionOutput where
  sign : String
  confidence : ℚ
  probabilities : List (String × ℚ)
deriving DecidableEq

/-- Packaging of the selection into the response, inference_server.py lines
183-187 (inference.py lines 148-152). -/
def formatPrediction (idxToLabel : List String) (probs : List ℚ) :
    PredictionOutput :=
  { sign := (selectSign idxToLabel probs).1
    confidence := (selectSign idxToLabel probs).2
    probabilities := letterProbs idxToLabel probs }

/-- A torch nn.Linear layer: a weight matrix (one row per output feature) and
a bias vector. -/
structure LinearLayer where
  weight : List (List ℚ)
  bias : List ℚ
deriving DecidableEq

/-- Dot product of two coordinate lists. -/
def dot : List ℚ → List ℚ → ℚ
  | x :: xs, y :: ys => x * y + dot xs ys
  | _, _ => 0

/-- Application of nn.Linear to a single feature vector. -/
def linearForward (l : LinearLayer) (x : List ℚ) : List ℚ :=
  List.zipWith (fun w b => dot w x + b) l.weight l.bias

/-- A torch nn.BatchNorm1d layer: learned affine parameters and the running
statistics accumulated during training. -/
structure BatchNormLayer where
  gamma : List ℚ
  beta : List ℚ
  runningMean : List ℚ
  runningVar : List ℚ
  eps : ℚ
deriving DecidableEq

/-- BatchNorm1d in evaluation mode (the only mode reached by the serving
path, since load_model calls model.eval()): each feature is normalized with
the stored running statistics.  The machine square root is the abstract
parameter sqrtA. -/
def batchNormEval (sqrtA : ℚ → ℚ) (bn : BatchNormLayer) (x : List ℚ) : List ℚ :=
  (List.range x.length).map (fun i =>
    bn.gamma.getD i 1 * ((x.getD i 0 - bn.runningMean.getD i 0)
      / sqrtA (bn.runningVar.getD i 0 + bn.eps)) + bn.beta.getD i 0)

/-- The nn.ReLU activation. -/
def relu (x : List ℚ) : List ℚ :=
  x.map (fun v => max v 0)

/-- The nn.Dropout layer with keep scaling: in training mode every coordinate
is zeroed when its Bernoulli draw (the mask) fires and otherwise rescaled by
1 / (1 - p); in evaluation mode the input passes through unchanged. -/
def dropoutForward (training : Bool) (p : ℚ) (mask : ℕ → Bool) (x : List ℚ) :
    List ℚ :=
  if training then
    x.enum.map (fun iv => if mask iv.1 then 0 else iv.2 / (1 - p))
  else x

/-- One hidden block of model.py ASLClassifier: Linear, BatchNorm1d, ReLU,
Dropout(0.3). -/
structure MLPBlock where
  lin : LinearLayer
  bn : BatchNormLayer
deriving DecidableEq

/-- The feed-forward classifier of model.py: a stack of hidden blocks
(default widths 128, 256, 128, 64) followed by the output nn.Linear. -/
structure ASLClassifier where
  blocks : List MLPBlock
  outLayer : LinearLayer
deriving DecidableEq

/-- Forward pass of ASLClassifier on one feature vector.  The mask stream
masks feeds one Bernoulli mask per hidden block to its dropout layer. -/
def aslForward (sqrtA : ℚ → ℚ) (training : Bool) (masks : ℕ → ℕ → Bool)
    (m : ASLClassifier) (x : List ℚ) : List ℚ :=
  linearForward m.outLayer
    (m.blocks.enum.foldl
      (fun acc ib =>
        dropoutForward training (3 / 10) (masks ib.1)
          (relu (batchNormEval sqrtA ib.2.bn (linearForward ib.2.lin acc))))
      x)

/-- The artifact kept in the module-level globals of inference_server.py after
load_model ran: the network, the index-to-label map (a dict keyed by class
index, modelled as a list in index order), the class count, and the module
mode flag set to evaluation by model.eval(). -/
structure LoadedArtifact where
  net : ASLClassifier
  idxToLabel : List String
  numClasses : ℕ
  training : Bool
deriving DecidableEq

/-- The module-level globals model / labels of inference_server.py.
load_model is the only writer and assigns both together, so they are modelled
as a single optional artifact; `loaded = none` is the state in which predict
sees `model is None` and get_labels sees `labels is None`. -/
structure ServerState where
  loaded : Option LoadedArtifact
deriving DecidableEq

/-- The checkpoint dict read from models/best_model.pth. -/
structure Checkpoint where
  net : ASLClassifier
  idxToLabel : List String
  numClasses : ℕ
deriving DecidableEq

/-- load_model of inference_server.py lines 43-84: rebuilds the network from
the checkpoint, calls model.eval() (training mode off), and publishes the
label maps. -/
def loadModel (ckpt : Checkpoint) : ServerState :=
  ⟨some ⟨ckpt.net, ckpt.idxToLabel, ckpt.numClasses, false⟩⟩

/-- An HTTP error response produced by raising HTTPException. -/
structure HTTPError where
  status : ℕ
  detail : String
deriving DecidableEq

/-- The body of the `try` block of predict, inference_server.py lines 128-187:
validate the landmark count (raising HTTPException 400), flatten via numpy,
validate the feature count (HTTPException 400), run the network under
torch.no_grad, apply softmax, restrict to letters and format the response. -/
def predictTry (e sqrtA : ℚ → ℚ) (masks : ℕ → ℕ → Bool) (art : LoadedArtifact)
    (landmarks : List (List ℚ)) : Except PyExc PredictionOutput :=
  if landmarks.length ≠ 21 then
    .error (.httpExc 400 ("Expected 21 landmarks, got "
      ++ toString landmarks.length))
  else
    match npFlatten landmarks with
    | .error exc => .error exc
    | .ok flat =>
      if flat.length ≠ 63 then
        .error (.httpExc 400 ("Expected 63 features (21 landmarks × 3 coords), got "
          ++ toString flat.length))
      else
        .ok (formatPrediction art.idxToLabel
          (softmax e (aslForward sqrtA art.training masks art.net flat)))

/-- The predict endpoint, inference_server.py lines 112-190.  The model-None
check precedes the try block and raises 503.  Every exception raised inside
the try block - including the HTTPException(400) instances raised by the
validation code itself - is caught by `except Exception as e` and re-raised
as HTTPException(500, str(e)).  The handler declares no globals, so the
shared state is returned unchanged. -/
def predictEndpoint (e sqrtA : ℚ → ℚ) (masks : ℕ → ℕ → Bool) (st : ServerState)
    (landmarks : List (List ℚ)) :
    Except HTTPError PredictionOutput × ServerState :=
  match st.loaded with
  | none => (.error ⟨503, "Model not loaded"⟩, st)
  | some art =>
    match predictTry e sqrtA masks art landmarks with
    | .ok out => (.ok out, st)
    | .error exc => (.error ⟨500, pyExcStr exc⟩, st)

/-- The get_labels endpoint, inference_server.py lines 193-199: 503 when the
labels global is None, otherwise the label data. -/
def getLabelsEndpoint (st : ServerState) :
    Except HTTPError (List String × ℕ) × ServerState :=
  match st.loaded with
  | none => (.error ⟨503, "Model not loaded"⟩, st)
  | some art => (.ok (art.idxToLabel, art.numClasses), st)

/-- Zero vector used to initialize the recurrent hidden and cell states. -/
def zeros (n : ℕ) : List ℚ := List.replicate n 0

/-- One step function of a recurrent layer: from the pair (hidden, cell) and
the input of the current time step to the new pair.  The nn.LSTM cell
arithmetic lives in the framework, outside the repository, so it is kept
abstract. -/
abbrev LSTMCell := List ℚ × List ℚ → List ℚ → List ℚ × List ℚ

/-- Run one recurrent layer over a sequence from a given state, returning the
hidden output at every time step and the final (hidden, cell) pair. -/
def runCell (cell : LSTMCell) :
    List ℚ × List ℚ → List (List ℚ) → List (List ℚ) × (List ℚ × List ℚ)
  | hc, [] => ([], hc)
  | hc, x :: xs =>
    let hc1 := cell hc x
    let rest := runCell cell hc1 xs
    (hc1.1 :: rest.1, rest.2)

/-- One stacked layer applied to a whole batch: nn.LSTM processes each batch
element independently from zero-initialized states. -/
def lstmLayerBatch (hidden : ℕ) (cell : LSTMCell)
    (batch : List (List (List ℚ))) :
    List (List (List ℚ)) × List (List ℚ) :=
  let runs := batch.map (fun seq => runCell cell (zeros hidden, zeros hidden) seq)
  (runs.map Prod.fst, runs.map (fun r => r.2.1))

/-- The stacked nn.LSTM on a batch: each layer consumes the output sequence of
the previous layer; the second component collects, layer by layer, the final
hidden states of the batch (the tensor h_n of shape layers x batch x hidden). -/
def lstmStackBatch (hidden : ℕ) :
    List LSTMCell → List (List (List ℚ)) →
    List (List (List ℚ)) × List (List (List ℚ))
  | [], batch => (batch, [])
  | c :: cs, batch =>
    let layer := lstmLayerBatch hidden c batch
    let rest := lstmStackBatch hidden cs layer.1
    (rest.1, layer.2 :: rest.2)

/-- The stacked recurrence on a single sequence, used to state per-element
properties of the batched forward pass. -/
def lstmStackSingle (hidden : ℕ) :
    List LSTMCell → List (List ℚ) → List (List ℚ) × List (List ℚ)
  | [], seq => (seq, [])
  | c :: cs, seq =>
    let r := runCell c (zeros hidden, zeros hidden) seq
    let rest := lstmStackSingle hidden cs r.1
    (rest.1, r.2.1 :: rest.2)

/-- Final hidden state of the last recurrent layer on one sequence: the value
h_n[-1] selects for that element. -/
def lastLayerFinalHidden (hidden : ℕ) (cells : List LSTMCell)
    (seq : List (List ℚ)) : List ℚ :=
  ((lstmStackSingle hidden cells seq).2).getLast?.getD []

/-- The classification head of model.py ASLLSTMClassifier: Linear, ReLU,
Dropout(0.3), Linear. -/
structure LSTMHead where
  fc1 : LinearLayer
  fc2 : LinearLayer

/-- Forward pass of the classification head on one hidden vector. -/
def headForward (training : Bool) (mask : ℕ → Bool) (h : LSTMHead)
    (x : List ℚ) : List ℚ :=
  linearForward h.fc2
    (dropoutForward training (3 / 10) mask (relu (linearForward h.fc1 x)))

/-- The LSTM classifier of model.py: hidden size, stacked recurrent layers
(num_layers = 2 in the source) and the classification head. -/
structure ASLLSTMClassifier where
  hiddenSize : ℕ
  cells : List LSTMCell
  head : LSTMHead

/-- A minimal concrete classifier used to evaluate the endpoint on concrete
requests: no hidden blocks and a single-class output layer. -/
def demoNet : ASLClassifier :=
  { blocks := [], outLayer := { weight := [[1]], bias := [0] } }

/-- A concrete checkpoint with the single label "A". -/
def demoCheckpoint : Checkpoint :=
  { net := demoNet, idxToLabel := ["A"], numClasses := 1 }

/-- A concrete one-layer LSTM classifier with hidden size 1 whose cell simply
passes the input through as the new hidden state. -/
def demoLSTM : ASLLSTMClassifier :=
  { hiddenSize := 1
    cells := [fun hc x => (x, hc.2)]
    head := { fc1 := { weight := [[1]], bias := [0] }
              fc2 := { weight := [[1]], bias := [0] } } }

/-- Input tensor shapes accepted by ASLLSTMClassifier.forward: a 2-D batch of
single feature vectors or a 3-D batch of sequences. -/
inductive LSTMInput where
  | dim2 (x : List (List ℚ))
  | dim3 (x : List (List (List ℚ)))

/-- ASLLSTMClassifier.forward, model.py lines 74-88: a 2-D input gains a
sequence dimension via unsqueeze(1); the stacked LSTM runs over the batch;
h_n[-1] (the final hidden state of the last layer, one vector per batch
element) feeds the classification head. -/
def lstmForward (training : Bool) (masks : ℕ → ℕ → Bool)
    (m : ASLLSTMClassifier) (input : LSTMInput) : List (List ℚ) :=
  let x := match input with
    | .dim2 b => b.map (fun v => [v])
    | .dim3 b => b
  let hn := (lstmStackBatch m.hiddenSize m.cells x).2
  let lastHidden := hn.getLast?.getD []
  lastHidden.enum.map (fun bh => headForward training (masks bh.1) m.head bh.2)

/-! ### Helper lemmas -/

lemma getD_nonneg (probs : List ℚ) (hnn : ∀ p ∈ probs, 0 ≤ p) (i : ℕ) :
    0 ≤ probs.getD i 0 := by
  rw [List.getD_eq_getElem?_getD]
  cases h : probs[i]? with
  | none => simp
  | some v =>
    obtain ⟨hi, hv⟩ := List.getElem?_eq_some.1 h
    simpa [hv] using hnn _ (probs.getElem_mem hi)

lemma flatten_rows_ok (L : List (List ℚ)) (hrows : ∀ r ∈ L, r.length = 3) :
    flattenLandmarks L = .ok L.flatten := by
  induction L with
  | nil => rfl
  | cons r t ih =>
    have hr : r.length = 3 := hrows r (by simp)
    have ht : ∀ s ∈ t, s.length = 3 := fun s hs => hrows s (by simp [hs])
    simp [flattenLandmarks, hr, ih ht]

lemma flatten_rows_length (L : List (List ℚ)) (hrows : ∀ r ∈ L, r.length = 3) :
    L.flatten.length = 3 * L.length := by
  induction L with
  | nil => simp
  | cons r t ih =>
    have hr : r.length = 3 := hrows r (by simp)
    have ht : ∀ s ∈ t, s.length = 3 := fun s hs => hrows s (by simp [hs])
    simp [hr, ih ht]
    ring

lemma flatten_rows_getD (L : List (List ℚ)) (hrows : ∀ r ∈ L, r.length = 3) :
    ∀ i k, i < L.length → k < 3 →
      L.flatten.getD (3 * i + k) 0 = (L.getD i []).getD k 0 := by
  induction L with
  | nil => intro i k hi _; exact absurd hi (by simp)
  | cons r t ih =>
    intro i k hi hk
    have hr : r.length = 3 := hrows r (by simp)
    have ht : ∀ s ∈ t, s.length = 3 := fun s hs => hrows s (by simp [hs])
    cases i with
    | zero =>
      have hkr : k < r.length := by omega
      simp only [List.flatten_cons, Nat.mul_zero, Nat.zero_add,
        List.getD_eq_getElem?_getD, List.getElem?_append, hkr, if_pos]
      simp [List.getD_eq_getElem?_getD]
    | succ j =>
      have hjt : j < t.length := by simpa using hi
      have hge : ¬ (3 * (j + 1) + k < r.length) := by omega
      have hsub : 3 * (j + 1) + k - r.length = 3 * j + k := by omega
      simp only [List.flatten_cons, List.getD_eq_getElem?_getD,
        List.getElem?_append, hge, if_neg, not_false_iff, hsub]
      have := ih ht j k hjt hk
      simpa [List.getD_eq_getElem?_getD] using this

lemma sum_map_div (L : List ℚ) (s : ℚ) :
    (L.map (fun x => x / s)).sum = L.sum / s := by
  induction L with
  | nil => simp
  | cons a t ih => simp [ih, add_div]

lemma letterProbs_snd_sum (idxToLabel : List String) (P : List ℚ) (n : ℕ) :
    (((List.range n).filterMap (letterEntry idxToLabel P)).map Prod.snd).sum
      = ((List.range n).map (fun i =>
          if isLetter (idxToLabel.getD i "") then P.getD i 0 else 0)).sum := by
  induction n with
  | zero => simp
  | succ m ih =>
    rw [List.range_succ, List.filterMap_append, List.map_append, List.sum_append,
      List.map_append, List.sum_append, ih]
    congr 1
    by_cases h : isLetter (idxToLabel.getD m "")
    · have hf : letterEntry idxToLabel P m
          = some (idxToLabel.getD m "", P.getD m 0) := by
        simp only [letterEntry, if_pos h]
      simp only [List.filterMap_cons, List.filterMap_nil, hf, List.map_cons,
        List.map_nil, List.sum_cons, List.sum_nil, add_zero, if_pos h]
    · have hf : letterEntry idxToLabel P m = none := by
        simp only [letterEntry, if_neg h]
      simp only [List.filterMap_cons, List.filterMap_nil, hf, List.map_cons,
        List.map_nil, List.sum_cons, List.sum_nil, add_zero, if_neg h]

lemma range_map_getD_sum (P : List ℚ) (n : ℕ) :
    ((List.range n).map (fun i => P.getD i 0)).sum = (P.take n).sum := by
  induction n with
  | zero => simp
  | succ m ih =>
    rw [List.range_succ, List.map_append, List.sum_append, ih, List.take_succ]
    cases h : P[m]? <;> simp [h, List.getD_eq_getElem?_getD]

lemma take_sum_le (P : List ℚ) (hnn : ∀ p ∈ P, 0 ≤ p) (n : ℕ) :
    (P.take n).sum ≤ P.sum := by
  have h := List.sum_take_add_sum_drop P n
  have hd : 0 ≤ (P.drop n).sum :=
    List.sum_nonneg (fun x hx => hnn x ((P.drop_sublist n).subset hx))
  linarith

lemma letterProbs_sum_le (idxToLabel : List String) (P : List ℚ)
    (hnn : ∀ p ∈ P, 0 ≤ p) :
    ((letterProbs idxToLabel P).map Prod.snd).sum ≤ P.sum := by
  rw [letterProbs, letterProbs_snd_sum]
  calc ((List.range idxToLabel.length).map (fun i =>
          if isLetter (idxToLabel.getD i "") then P.getD i 0 else 0)).sum
      ≤ ((List.range idxToLabel.length).map (fun i => P.getD i 0)).sum := by
        refine List.sum_le_sum (fun i _ => ?_)
        by_cases h : isLetter (idxToLabel.getD i "")
        · exact le_of_eq (if_pos h)
        · rw [if_neg h]
          exact getD_nonneg P hnn i
    _ = (P.take idxToLabel.length).sum := range_map_getD_sum P _
    _ ≤ P.sum := take_sum_le P hnn _

lemma letterScan_spec (idxToLabel : List String) (probs : List ℚ)
    (hnn : ∀ i, 0 ≤ probs.getD i 0) (n : ℕ) :
    ((List.range n).foldl (letterScanStep idxToLabel probs) (-1, -1) = (-1, -1)
       ∧ ∀ i, i < n → ¬ isLetter (idxToLabel.getD i "") = true)
    ∨ (∃ j, j < n
        ∧ (List.range n).foldl (letterScanStep idxToLabel probs) (-1, -1)
            = ((j : Int), probs.getD j 0)
        ∧ isLetter (idxToLabel.getD j "") = true
        ∧ (∀ i, i < n → isLetter (idxToLabel.getD i "") = true →
            probs.getD i 0 ≤ probs.getD j 0)
        ∧ (∀ i, i < j → isLetter (idxToLabel.getD i "") = true →
            probs.getD i 0 < probs.getD j 0)) := by
  induction n with
  | zero => exact Or.inl ⟨rfl, fun i hi => absurd hi (Nat.not_lt_zero i)⟩
  | succ m ih =>
    rw [List.range_succ, List.foldl_append, List.foldl_cons, List.foldl_nil]
    cases ih with
    | inl h =>
      obtain ⟨hacc, hnolet⟩ := h
      rw [hacc]
      by_cases hl : isLetter (idxToLabel.getD m "") = true
      · have hlt : (((-1, -1) : Int × ℚ).2 : ℚ) < probs.getD m 0 := by
          have h0 := hnn m
          show (-1 : ℚ) < probs.getD m 0
          linarith
        refine Or.inr ⟨m, Nat.lt_succ_self m, ?_, hl, ?_, ?_⟩
        · simp only [letterScanStep]
          rw [if_pos ⟨hl, hlt⟩]
        · intro i hi hli
          rcases Nat.lt_succ_iff_lt_or_eq.1 hi with hlt2 | rfl
          · exact absurd hli (hnolet i hlt2)
          · exact le_refl _
        · intro i hi hli
          exact absurd hli (hnolet i hi)
      · refine Or.inl ⟨?_, ?_⟩
        · simp only [letterScanStep]
          rw [if_neg (fun hc => hl hc.1)]
        · intro i hi
          rcases Nat.lt_succ_iff_lt_or_eq.1 hi with hlt2 | rfl
          · exact hnolet i hlt2
          · exact hl
    | inr h =>
      obtain ⟨j, hjm, hacc, hlj, hmax, hfirst⟩ := h
      rw [hacc]
      by_cases hc : isLetter (idxToLabel.getD m "") = true
          ∧ (((j : Int), probs.getD j 0) : Int × ℚ).2 < probs.getD m 0
      · refine Or.inr ⟨m, Nat.lt_succ_self m, ?_, hc.1, ?_, ?_⟩
        · simp only [letterScanStep]
          rw [if_pos hc]
        · intro i hi hli
          rcases Nat.lt_succ_iff_lt_or_eq.1 hi with hlt2 | rfl
          · exact le_of_lt (lt_of_le_of_lt (hmax i hlt2 hli) hc.2)
          · exact le_refl _
        · intro i hi hli
          exact lt_of_le_of_lt (hmax i hi hli) hc.2
      · refine Or.inr ⟨j, Nat.lt_succ_of_lt hjm, ?_, hlj, ?_, hfirst⟩
        · simp only [letterScanStep]
          rw [if_neg hc]
        · intro i hi hli
          rcases Nat.lt_succ_iff_lt_or_eq.1 hi with hlt2 | rfl
          · exact hmax i hlt2 hli
          · by_contra hgt
            exact hc ⟨hli,
              show probs.getD j 0 < probs.getD i 0 from lt_of_not_le hgt⟩

lemma letterScan_no_letters (idxToLabel : List String) (probs : List ℚ) (n : ℕ)
    (hnolet : ∀ i, i < n → ¬ isLetter (idxToLabel.getD i "") = true) :
    (List.range n).foldl (letterScanStep idxToLabel probs) (-1, -1) = (-1, -1) := by
  induction n with
  | zero => rfl
  | succ m ih =>
    rw [List.range_succ, List.foldl_append, List.foldl_cons, List.foldl_nil,
      ih (fun i hi => hnolet i (Nat.lt_succ_of_lt hi))]
    simp only [letterScanStep]
    rw [if_neg (fun hc => hnolet m (Nat.lt_succ_self m) hc.1)]

lemma argmaxFold_spec (probs : List ℚ) (n : ℕ) :
    ((List.range n).foldl
        (fun acc i => if probs.getD acc 0 < probs.getD i 0 then i else acc) 0 = 0
      ∨ (List.range n).foldl
        (fun acc i => if probs.getD acc 0 < probs.getD i 0 then i else acc) 0 < n)
    ∧ (∀ i, i < n → probs.getD i 0
        ≤ probs.getD ((List.range n).foldl
            (fun acc i => if probs.getD acc 0 < probs.getD i 0 then i else acc) 0) 0)
    ∧ ∀ i, i < (List.range n).foldl
          (fun acc i => if probs.getD acc 0 < probs.getD i 0 then i else acc) 0 →
        probs.getD i 0
          < probs.getD ((List.range n).foldl
              (fun acc i => if probs.getD acc 0 < probs.getD i 0 then i else acc) 0) 0 := by
  induction n with
  | zero =>
    exact ⟨Or.inl rfl, fun i hi => absurd hi (Nat.not_lt_zero i),
      fun i hi => absurd hi (Nat.not_lt_zero i)⟩
  | succ m ih =>
    obtain ⟨hb, hmax, hfirst⟩ := ih
    rw [List.range_succ, List.foldl_append, List.foldl_cons, List.foldl_nil]
    set r := (List.range m).foldl
      (fun acc i => if probs.getD acc 0 < probs.getD i 0 then i else acc) 0 with hr
    by_cases hc : probs.getD r 0 < probs.getD m 0
    · rw [if_pos hc]
      refine ⟨Or.inr (Nat.lt_succ_self m), ?_, ?_⟩
      · intro i hi
        rcases Nat.lt_succ_iff_lt_or_eq.1 hi with hlt2 | rfl
        · exact le_of_lt (lt_of_le_of_lt (hmax i hlt2) hc)
        · exact le_refl _
      · intro i hi
        exact lt_of_le_of_lt (hmax i hi) hc
    · rw [if_neg hc]
      refine ⟨?_, ?_, hfirst⟩
      · rcases hb with h0 | hlt2
        · exact Or.inl h0
        · exact Or.inr (Nat.lt_succ_of_lt hlt2)
      · intro i hi
        rcases Nat.lt_succ_iff_lt_or_eq.1 hi with hlt2 | rfl
        · exact hmax i hlt2
        · exact le_of_not_lt hc

lemma selectSign_of_scan (idxToLabel : List String) (probs : List ℚ) (j : ℕ)
    (hscan : bestLetterScan idxToLabel probs = ((j : Int), probs.getD j 0)) :
    selectSign idxToLabel probs = (idxToLabel.getD j "", probs.getD j 0) := by
  simp only [selectSign]
  rw [hscan]
  have hne : ((j : Int), probs.getD j 0).1 = -1 → False := by
    intro h
    simp only [Prod.fst] at h
    omega
  rw [if_neg hne]
  simp [Int.toNat_ofNat]

lemma selectSign_fallback (idxToLabel : List String) (probs : List ℚ)
    (hscan : bestLetterScan idxToLabel probs = (-1, -1)) :
    selectSign idxToLabel probs
      = (idxToLabel.getD (npArgmax probs) "", probs.getD (npArgmax probs) 0) := by
  simp only [selectSign]
  rw [hscan, if_pos rfl]

/-! ### Claim theorems -/

/-- C2: for every valid landmark set of exactly 21 points of 3 coordinates
each, the feature flattener succeeds and returns the row-major concatenation,
a 63-element vector whose element 3 i + k is coordinate k of point i; the
flattener is a pure function of the landmark list alone. -/
theorem flattener_pointwise (L : List (List ℚ)) (hlen : L.length = 21)
    (hrows : ∀ r ∈ L, r.length = 3) :
    flattenLandmarks L = .ok L.flatten
    ∧ L.flatten.length = 63
    ∧ ∀ i k, i < 21 → k < 3 →
        L.flatten.getD (3 * i + k) 0 = (L.getD i []).getD k 0 := by
  refine ⟨flatten_rows_ok L hrows, ?_, ?_⟩
  · rw [flatten_rows_length L hrows, hlen]
  · intro i k hi hk
    exact flatten_rows_getD L hrows i k (by omega) hk

/-- Witness for C2 at a concrete landmark set. -/
theorem flattener_pointwise_witness :
    flattenLandmarks (List.replicate 21 [1, 2, 3])
        = .ok (List.replicate 21 ([1, 2, 3] : List ℚ)).flatten
    ∧ (List.replicate 21 ([1, 2, 3] : List ℚ)).flatten.length = 63
    ∧ ∀ i k, i < 21 → k < 3 →
        (List.replicate 21 ([1, 2, 3] : List ℚ)).flatten.getD (3 * i + k) 0
          = ((List.replicate 21 ([1, 2, 3] : List ℚ)).getD i []).getD k 0 :=
  flattener_pointwise (List.replicate 21 [1, 2, 3]) (by decide)
    (fun r hr => by
      have := List.eq_of_mem_replicate hr
      simp [this])

/-- C1: whenever the label universe contains at least one A-Z letter and the
probabilities are nonnegative, the selected sign is a letter whose probability
is maximal among letter-labelled classes (even when a non-letter class has the
globally highest probability), the probability map has a key for every
letter-labelled class, and no key of the map is a non-letter. -/
theorem predict_selects_best_letter (idxToLabel : List String) (probs : List ℚ)
    (hlen : probs.length = idxToLabel.length)
    (hnn : ∀ p ∈ probs, 0 ≤ p)
    (hletter : ∃ i, i < idxToLabel.length
      ∧ isLetter (idxToLabel.getD i "") = true) :
    isLetter (formatPrediction idxToLabel probs).sign = true
    ∧ (∃ j, j < idxToLabel.length
        ∧ (formatPrediction idxToLabel probs).sign = idxToLabel.getD j ""
        ∧ (formatPrediction idxToLabel probs).confidence = probs.getD j 0
        ∧ isLetter (idxToLabel.getD j "") = true
        ∧ ∀ i, i < idxToLabel.length → isLetter (idxToLabel.getD i "") = true →
            probs.getD i 0 ≤ probs.getD j 0)
    ∧ (∀ i, i < idxToLabel.length → isLetter (idxToLabel.getD i "") = true →
        idxToLabel.getD i ""
          ∈ (formatPrediction idxToLabel probs).probabilities.map Prod.fst)
    ∧ ∀ kv ∈ (formatPrediction idxToLabel probs).probabilities,
        isLetter kv.1 = true := by
  rcases letterScan_spec idxToLabel probs (getD_nonneg probs hnn)
      idxToLabel.length with
    ⟨_, hnolet⟩ | ⟨j, hjn, hscan, hlj, hmax, _⟩
  · obtain ⟨i, hi, hli⟩ := hletter
    exact absurd hli (hnolet i hi)
  · have hsel := selectSign_of_scan idxToLabel probs j hscan
    have hsign : (formatPrediction idxToLabel probs).sign
        = idxToLabel.getD j "" := by
      simp only [formatPrediction, hsel]
    have hconf : (formatPrediction idxToLabel probs).confidence
        = probs.getD j 0 := by
      simp only [formatPrediction, hsel]
    refine ⟨by rw [hsign]; exact hlj, ⟨j, hjn, hsign, hconf, hlj, hmax⟩, ?_, ?_⟩
    · intro i hi hli
      have hmem : (idxToLabel.getD i "", probs.getD i 0)
          ∈ letterProbs idxToLabel probs := by
        rw [letterProbs]
        exact List.mem_filterMap.2 ⟨i, List.mem_range.2 hi,
          by simp only [letterEntry, if_pos hli]⟩
      exact List.mem_map_of_mem Prod.fst hmem
    · intro kv hkv
      have hkv2 : kv ∈ letterProbs idxToLabel probs := hkv
      rw [letterProbs] at hkv2
      obtain ⟨a, _, ha⟩ := List.mem_filterMap.1 hkv2
      by_cases h : isLetter (idxToLabel.getD a "") = true
      · simp only [letterEntry, if_pos h] at ha
        injection ha with ha2
        rw [← ha2]
        exact h
      · simp only [letterEntry, if_neg h] at ha
        exact Option.noConfusion ha

/-- Witness for C1 with a non-letter class holding the globally highest
probability. -/
theorem predict_selects_best_letter_witness :
    isLetter (formatPrediction ["space", "A", "B"]
        [7, 1, 2]).sign = true
    ∧ (∃ j, j < (["space", "A", "B"] : List String).length
        ∧ (formatPrediction ["space", "A", "B"] [7, 1, 2]).sign
            = (["space", "A", "B"] : List String).getD j ""
        ∧ (formatPrediction ["space", "A", "B"]
              [7, 1, 2]).confidence
            = ([7, 1, 2] : List ℚ).getD j 0
        ∧ isLetter ((["space", "A", "B"] : List String).getD j "") = true
        ∧ ∀ i, i < (["space", "A", "B"] : List String).length →
            isLetter ((["space", "A", "B"] : List String).getD i "") = true →
            ([7, 1, 2] : List ℚ).getD i 0
              ≤ ([7, 1, 2] : List ℚ).getD j 0)
    ∧ (∀ i, i < (["space", "A", "B"] : List String).length →
        isLetter ((["space", "A", "B"] : List String).getD i "") = true →
        (["space", "A", "B"] : List String).getD i ""
          ∈ (formatPrediction ["space", "A", "B"]
              [7, 1, 2]).probabilities.map Prod.fst)
    ∧ ∀ kv ∈ (formatPrediction ["space", "A", "B"]
        [7, 1, 2]).probabilities, isLetter kv.1 = true :=
  predict_selects_best_letter ["space", "A", "B"] [7, 1, 2]
    (by decide) (by decide) ⟨1, by decide, by decide⟩

/-- C4: when several letter classes tie at the maximal letter probability,
the scan settles on the lowest such index: the returned index j is at most
i1, carries the same probability, and every letter index strictly below j
has strictly smaller probability; the selection is a pure function, so
repeated calls return the same class. -/
theorem tie_break_lowest_index (idxToLabel : List String) (probs : List ℚ)
    (hnn : ∀ p ∈ probs, 0 ≤ p) (i₁ i₂ : ℕ)
    (h12 : i₁ < i₂) (h2n : i₂ < idxToLabel.length)
    (hl1 : isLetter (idxToLabel.getD i₁ "") = true)
    (hl2 : isLetter (idxToLabel.getD i₂ "") = true)
    (heq : probs.getD i₁ 0 = probs.getD i₂ 0)
    (hmax : ∀ k, k < idxToLabel.length →
        isLetter (idxToLabel.getD k "") = true →
        probs.getD k 0 ≤ probs.getD i₁ 0) :
    ∃ j, j ≤ i₁
      ∧ bestLetterScan idxToLabel probs = ((j : Int), probs.getD j 0)
      ∧ isLetter (idxToLabel.getD j "") = true
      ∧ probs.getD j 0 = probs.getD i₁ 0
      ∧ (∀ k, k < j → isLetter (idxToLabel.getD k "") = true →
          probs.getD k 0 < probs.getD j 0)
      ∧ selectSign idxToLabel probs
          = (idxToLabel.getD j "", probs.getD j 0) := by
  rcases letterScan_spec idxToLabel probs (getD_nonneg probs hnn)
      idxToLabel.length with
    ⟨_, hnolet⟩ | ⟨j, hjn, hscan, hlj, hmax2, hfirst⟩
  · exact absurd hl1 (hnolet i₁ (lt_trans h12 h2n))
  · have hji : probs.getD j 0 = probs.getD i₁ 0 :=
      le_antisymm (hmax j hjn hlj) (hmax2 i₁ (lt_trans h12 h2n) hl1)
    have hjle : j ≤ i₁ := by
      by_contra hgt
      have hlt2 := hfirst i₁ (lt_of_not_le hgt) hl1
      rw [hji] at hlt2
      exact lt_irrefl _ hlt2
    exact ⟨j, hjle, hscan, hlj, hji, hfirst,
      selectSign_of_scan idxToLabel probs j hscan⟩

/-- Witness for C4 with two letter classes tied at the maximum. -/
theorem tie_break_lowest_index_witness :
    ∃ j : ℕ, j ≤ 0
      ∧ bestLetterScan ["A", "B"] [1, 1]
          = ((j : Int), ([1, 1] : List ℚ).getD j 0)
      ∧ isLetter ((["A", "B"] : List String).getD j "") = true
      ∧ ([1, 1] : List ℚ).getD j 0
          = ([1, 1] : List ℚ).getD 0 0
      ∧ (∀ k, k < j → isLetter ((["A", "B"] : List String).getD k "") = true →
          ([1, 1] : List ℚ).getD k 0
            < ([1, 1] : List ℚ).getD j 0)
      ∧ selectSign ["A", "B"] [1, 1]
          = ((["A", "B"] : List String).getD j "",
             ([1, 1] : List ℚ).getD j 0) :=
  tie_break_lowest_index ["A", "B"] [1, 1] (by decide) 0 1
    (by decide) (by decide) (by decide) (by decide) (by decide) (by decide)

/-- C7: when the label universe contains no A-Z letter, the selection falls
back to the unrestricted argmax over all classes: the returned sign is the
label of the globally highest-probability class and the confidence is that
probability, which dominates every class probability. -/
theorem fallback_global_argmax (idxToLabel : List String) (probs : List ℚ)
    (hlen : probs.length = idxToLabel.length)
    (hnolet : ∀ i, i < idxToLabel.length →
        ¬ isLetter (idxToLabel.getD i "") = true) :
    selectSign idxToLabel probs
      = (idxToLabel.getD (npArgmax probs) "", probs.getD (npArgmax probs) 0)
    ∧ ∀ i, i < probs.length →
        probs.getD i 0 ≤ probs.getD (npArgmax probs) 0 := by
  have hscan : bestLetterScan idxToLabel probs = (-1, -1) :=
    letterScan_no_letters idxToLabel probs idxToLabel.length hnolet
  obtain ⟨_, hmax, _⟩ := argmaxFold_spec probs probs.length
  exact ⟨selectSign_fallback idxToLabel probs hscan, hmax⟩

/-- Witness for C7 with a letter-free label universe. -/
theorem fallback_global_argmax_witness :
    selectSign ["space", "del"] [3, 7]
      = ((["space", "del"] : List String).getD
            (npArgmax [3, 7]) "",
         ([3, 7] : List ℚ).getD (npArgmax [3, 7]) 0)
    ∧ ∀ i, i < ([3, 7] : List ℚ).length →
        ([3, 7] : List ℚ).getD i 0
          ≤ ([3, 7] : List ℚ).getD (npArgmax [3, 7]) 0 :=
  fallback_global_argmax ["space", "del"] [3, 7]
    (by decide) (by decide)

lemma lookup_letterProbs_aux (idxToLabel : List String) (probs : List ℚ)
    (hnd : idxToLabel.Nodup) (j : ℕ) (hj : j < idxToLabel.length)
    (hlj : isLetter (idxToLabel.getD j "") = true) :
    ∀ l : List ℕ, j ∈ l → (∀ i ∈ l, i < idxToLabel.length) →
      (l.filterMap (letterEntry idxToLabel probs)).lookup
          (idxToLabel.getD j "")
        = some (probs.getD j 0) := by
  intro l
  induction l with
  | nil => intro h _; cases h
  | cons a t ih =>
    intro hmem hbound
    by_cases haj : a = j
    · subst haj
      have hf : letterEntry idxToLabel probs a
          = some (idxToLabel.getD a "", probs.getD a 0) := by
        simp only [letterEntry, if_pos hlj]
      simp only [List.filterMap_cons, hf, List.lookup_cons, beq_self_eq_true]
    · have hjt : j ∈ t := by
        rcases List.mem_cons.1 hmem with h | h
        · exact absurd h.symm haj
        · exact h
      have hb : a < idxToLabel.length := hbound a (List.mem_cons_self a t)
      have hne : idxToLabel.getD j "" ≠ idxToLabel.getD a "" := by
        intro he
        apply haj
        rw [List.getD_eq_getElem idxToLabel "" hj,
          List.getD_eq_getElem idxToLabel "" hb] at he
        exact ((hnd.getElem_inj_iff).1 he).symm
      have hbeq : (idxToLabel.getD j "" == idxToLabel.getD a "") = false :=
        beq_eq_false_iff_ne.2 hne
      by_cases hla : isLetter (idxToLabel.getD a "") = true
      · have hf : letterEntry idxToLabel probs a
            = some (idxToLabel.getD a "", probs.getD a 0) := by
          simp only [letterEntry, if_pos hla]
        simp only [List.filterMap_cons, hf, List.lookup_cons, hbeq]
        exact ih hjt (fun i hi => hbound i (List.mem_cons_of_mem a hi))
      · have hf : letterEntry idxToLabel probs a = none := by
          simp only [letterEntry, if_neg hla]
        simp only [List.filterMap_cons, hf]
        exact ih hjt (fun i hi => hbound i (List.mem_cons_of_mem a hi))

/-- C10: whenever the selected sign is an A-Z letter (and the label list has
no duplicate labels), the returned confidence is exactly the value stored in
the probability map under the selected sign, and no value of the map exceeds
the confidence. -/
theorem confidence_matches_probability_map (idxToLabel : List String)
    (probs : List ℚ)
    (hlen : probs.length = idxToLabel.length)
    (hnn : ∀ p ∈ probs, 0 ≤ p)
    (hnd : idxToLabel.Nodup)
    (hsign : isLetter (formatPrediction idxToLabel probs).sign = true) :
    (formatPrediction idxToLabel probs).probabilities.lookup
        (formatPrediction idxToLabel probs).sign
      = some (formatPrediction idxToLabel probs).confidence
    ∧ ∀ kv ∈ (formatPrediction idxToLabel probs).probabilities,
        kv.2 ≤ (formatPrediction idxToLabel probs).confidence := by
  rcases letterScan_spec idxToLabel probs (getD_nonneg probs hnn)
      idxToLabel.length with
    ⟨hacc, hnolet⟩ | ⟨j, hjn, hscan, hlj, hmax, _⟩
  · exfalso
    have hsel := selectSign_fallback idxToLabel probs hacc
    have hsign2 : isLetter (idxToLabel.getD (npArgmax probs) "") = true := by
      have hs2 : (formatPrediction idxToLabel probs).sign
          = idxToLabel.getD (npArgmax probs) "" := by
        simp only [formatPrediction, hsel]
      rwa [hs2] at hsign
    rcases Nat.eq_zero_or_pos idxToLabel.length with h0 | hpos
    · rw [List.length_eq_zero.1 h0] at hsign2
      have hemp : (List.getD ([] : List String) (npArgmax probs) "") = "" := by
        simp
      rw [hemp] at hsign2
      exact absurd hsign2 (by decide)
    · obtain ⟨hb, _, _⟩ := argmaxFold_spec probs probs.length
      have hb2 : npArgmax probs = 0 ∨ npArgmax probs < probs.length := hb
      have harg : npArgmax probs < idxToLabel.length := by
        rcases hb2 with h | h <;> omega
      exact hnolet _ harg hsign2
  · have hsel := selectSign_of_scan idxToLabel probs j hscan
    have hsign2 : (formatPrediction idxToLabel probs).sign
        = idxToLabel.getD j "" := by
      simp only [formatPrediction, hsel]
    have hconf : (formatPrediction idxToLabel probs).confidence
        = probs.getD j 0 := by
      simp only [formatPrediction, hsel]
    constructor
    · rw [hsign2, hconf]
      show (letterProbs idxToLabel probs).lookup (idxToLabel.getD j "")
        = some (probs.getD j 0)
      rw [letterProbs]
      exact lookup_letterProbs_aux idxToLabel probs hnd j hjn hlj
        (List.range idxToLabel.length) (List.mem_range.2 hjn)
        (fun i hi => List.mem_range.1 hi)
    · intro kv hkv
      rw [hconf]
      have hkv2 : kv ∈ letterProbs idxToLabel probs := hkv
      rw [letterProbs] at hkv2
      obtain ⟨a, ha_mem, ha⟩ := List.mem_filterMap.1 hkv2
      by_cases h : isLetter (idxToLabel.getD a "") = true
      · simp only [letterEntry, if_pos h] at ha
        injection ha with ha2
        rw [← ha2]
        exact hmax a (List.mem_range.1 ha_mem) h
      · simp only [letterEntry, if_neg h] at ha
        exact Option.noConfusion ha

/-- Witness for C10 with a non-letter class holding the globally highest
probability. -/
theorem confidence_matches_probability_map_witness :
    (formatPrediction ["space", "A", "B"]
        [7, 1, 2]).probabilities.lookup
        (formatPrediction ["space", "A", "B"] [7, 1, 2]).sign
      = some (formatPrediction ["space", "A", "B"]
          [7, 1, 2]).confidence
    ∧ ∀ kv ∈ (formatPrediction ["space", "A", "B"]
        [7, 1, 2]).probabilities,
        kv.2 ≤ (formatPrediction ["space", "A", "B"]
            [7, 1, 2]).confidence :=
  confidence_matches_probability_map ["space", "A", "B"]
    [7, 1, 2] (by decide) (by decide) (by decide) (by decide)

/-- C5: the probability distribution is the exponential normalization of the
logits with the maximum subtracted before exponentiation (definition of
softmax above, from the source); for any positive machine exponential and
nonempty logit vector every probability lies in the unit interval, the full
distribution sums to exactly 1, and the letter-restricted probability map
sums to at most 1. -/
theorem softmax_normalized (e : ℚ → ℚ) (logits : List ℚ)
    (idxToLabel : List String) (he : ∀ z, 0 < e z) (hne : logits ≠ []) :
    (∀ p ∈ softmax e logits, 0 ≤ p ∧ p ≤ 1)
    ∧ (softmax e logits).sum = 1
    ∧ ((letterProbs idxToLabel (softmax e logits)).map Prod.snd).sum ≤ 1 := by
  have hpos : ∀ x ∈ logits.map (fun z => e (z - npMax logits)), 0 < x := by
    intro x hx
    obtain ⟨z, _, rfl⟩ := List.mem_map.1 hx
    exact he _
  have hexne : logits.map (fun z => e (z - npMax logits)) ≠ [] := by
    simpa using hne
  have hs : 0 < (logits.map (fun z => e (z - npMax logits))).sum :=
    List.sum_pos _ hpos hexne
  have hbounds : ∀ p ∈ softmax e logits, 0 ≤ p ∧ p ≤ 1 := by
    intro p hp
    simp only [softmax] at hp
    obtain ⟨x, hx, rfl⟩ := List.mem_map.1 hp
    constructor
    · exact div_nonneg (le_of_lt (hpos x hx)) (le_of_lt hs)
    · rw [div_le_one hs]
      exact List.single_le_sum (fun y hy => le_of_lt (hpos y hy)) x hx
  have hsum : (softmax e logits).sum = 1 := by
    simp only [softmax]
    rw [sum_map_div, div_self (ne_of_gt hs)]
  refine ⟨hbounds, hsum, ?_⟩
  calc ((letterProbs idxToLabel (softmax e logits)).map Prod.snd).sum
      ≤ (softmax e logits).sum :=
        letterProbs_sum_le idxToLabel _ (fun p hp => (hbounds p hp).1)
    _ = 1 := hsum

/-- Witness for C5 at a concrete exponential and logit vector. -/
theorem softmax_normalized_witness :
    (∀ p ∈ softmax (fun _ => 1) [0, 1], 0 ≤ p ∧ p ≤ 1)
    ∧ (softmax (fun _ => 1) [(0 : ℚ), 1]).sum = 1
    ∧ ((letterProbs ["space", "A"] (softmax (fun _ => 1) [0, 1])).map
        Prod.snd).sum ≤ 1 :=
  softmax_normalized (fun _ => 1) [0, 1] ["space", "A"]
    (fun _ => one_pos) (by decide)

/-- C6: while no model artifact is loaded, the predict endpoint and the
labels endpoint both answer 503 with detail "Model not loaded", without
running inference setup, and the shared state is unchanged. -/
theorem not_loaded_returns_503 (e sqrtA : ℚ → ℚ) (masks : ℕ → ℕ → Bool)
    (st : ServerState) (landmarks : List (List ℚ)) (h : st.loaded = none) :
    predictEndpoint e sqrtA masks st landmarks
        = (.error ⟨503, "Model not loaded"⟩, st)
    ∧ getLabelsEndpoint st = (.error ⟨503, "Model not loaded"⟩, st) := by
  rcases st with ⟨_ | art⟩
  · exact ⟨rfl, rfl⟩
  · exact Option.noConfusion h

/-- Witness for C6 at the unloaded state. -/
theorem not_loaded_returns_503_witness :
    predictEndpoint (fun z => z) (fun z => z) (fun _ _ => false) ⟨none⟩ []
        = (.error ⟨503, "Model not loaded"⟩, (⟨none⟩ : ServerState))
    ∧ getLabelsEndpoint ⟨none⟩
        = (.error ⟨503, "Model not loaded"⟩, (⟨none⟩ : ServerState)) :=
  not_loaded_returns_503 (fun z => z) (fun z => z) (fun _ _ => false)
    ⟨none⟩ [] rfl

/-- C3 (code bug): a request with 20 landmarks against a loaded model is
answered with HTTP status 500, not a 400-class status, because the
HTTPException(400) raised by the validation code is caught by the blanket
`except Exception` and re-raised as 500; the detail still names the expected
count 21 and the actual count 20, and the shared state is unchanged. -/
theorem wrong_landmark_count_returns_500 :
    (predictEndpoint (fun z => z) (fun z => z) (fun _ _ => false)
        (loadModel demoCheckpoint) (List.replicate 20 [0, 0, 0])).1
      = .error ⟨500, "400: Expected 21 landmarks, got 20"⟩
    ∧ (predictEndpoint (fun z => z) (fun z => z) (fun _ _ => false)
        (loadModel demoCheckpoint) (List.replicate 20 [0, 0, 0])).2
      = loadModel demoCheckpoint :=
  ⟨rfl, rfl⟩

/-- C9: predict on a state produced by loadModel (which switches the network
to evaluation mode) is a pure function of the request and the loaded
artifact: the result is bit-identical across calls, whatever Bernoulli
dropout masks the two calls would have drawn. -/
theorem predict_inference_deterministic (e sqrtA : ℚ → ℚ) (ckpt : Checkpoint)
    (masks₁ masks₂ : ℕ → ℕ → Bool) (lm : List (List ℚ)) :
    predictEndpoint e sqrtA masks₁ (loadModel ckpt) lm
      = predictEndpoint e sqrtA masks₂ (loadModel ckpt) lm := rfl

lemma getLast?_cons_of_ne_nil {α : Type} (a : α) (l : List α) (h : l ≠ []) :
    (a :: l).getLast? = l.getLast? := by
  cases l with
  | nil => exact absurd rfl h
  | cons b t => exact List.getLast?_cons_cons

lemma stackSingle_snd_length (hidden : ℕ) (cells : List LSTMCell)
    (seq : List (List ℚ)) :
    (lstmStackSingle hidden cells seq).2.length = cells.length := by
  induction cells generalizing seq with
  | nil => rfl
  | cons c cs ih => simp [lstmStackSingle, ih]

lemma stackBatch_snd_length (hidden : ℕ) (cells : List LSTMCell)
    (batch : List (List (List ℚ))) :
    (lstmStackBatch hidden cells batch).2.length = cells.length := by
  induction cells generalizing batch with
  | nil => rfl
  | cons c cs ih => simp [lstmStackBatch, ih]

lemma lastLayerFinalHidden_cons (hidden : ℕ) (c : LSTMCell)
    (cs : List LSTMCell) (hcs : cs ≠ []) (seq : List (List ℚ)) :
    lastLayerFinalHidden hidden (c :: cs) seq
      = lastLayerFinalHidden hidden cs
          ((runCell c (zeros hidden, zeros hidden) seq).1) := by
  have hlen := stackSingle_snd_length hidden cs
    ((runCell c (zeros hidden, zeros hidden) seq).1)
  have hne : (lstmStackSingle hidden cs
      ((runCell c (zeros hidden, zeros hidden) seq).1)).2 ≠ [] := by
    intro hemp
    rw [hemp] at hlen
    exact hcs (List.length_eq_zero.1 hlen.symm)
  simp only [lastLayerFinalHidden, lstmStackSingle]
  rw [getLast?_cons_of_ne_nil _ _ hne]

lemma stackBatch_snd_getLast (hidden : ℕ) (cells : List LSTMCell)
    (hc : cells ≠ []) (batch : List (List (List ℚ))) :
    (lstmStackBatch hidden cells batch).2.getLast?
      = some (batch.map (lastLayerFinalHidden hidden cells)) := by
  induction cells generalizing batch with
  | nil => exact absurd rfl hc
  | cons c cs ih =>
    cases cs with
    | nil =>
      simp only [lstmStackBatch, lstmLayerBatch, List.map_map]
      rfl
    | cons c2 cs2 =>
      have hne : (lstmStackBatch hidden (c2 :: cs2)
          (lstmLayerBatch hidden c batch).1).2 ≠ [] := by
        intro hemp
        have hl := stackBatch_snd_length hidden (c2 :: cs2)
          (lstmLayerBatch hidden c batch).1
        rw [hemp] at hl
        exact List.noConfusion (List.length_eq_zero.1 hl.symm)
      show ((lstmLayerBatch hidden c batch).2
          :: (lstmStackBatch hidden (c2 :: cs2)
                (lstmLayerBatch hidden c batch).1).2).getLast?
        = some (batch.map (lastLayerFinalHidden hidden (c :: c2 :: cs2)))
      rw [getLast?_cons_of_ne_nil _ _ hne,
        ih (List.cons_ne_nil c2 cs2) (lstmLayerBatch hidden c batch).1]
      congr 1
      show ((batch.map fun seq =>
          runCell c (zeros hidden, zeros hidden) seq).map Prod.fst).map
            (lastLayerFinalHidden hidden (c2 :: cs2))
          = batch.map (lastLayerFinalHidden hidden (c :: c2 :: cs2))
      simp only [List.map_map]
      refine List.map_congr_left (fun s _ => ?_)
      exact (lastLayerFinalHidden_cons hidden c (c2 :: cs2)
        (List.cons_ne_nil c2 cs2) s).symm

/-- C8: the LSTM forward pass accepts a 2-D batch (treated as one-step
sequences, identical to the corresponding 3-D input) or a 3-D batch of
sequences, and returns exactly one score vector per batch element - not one
per time step - each computed by the classification head from the final
hidden state of the last recurrent layer on that element. -/
theorem lstm_forward_one_per_batch (m : ASLLSTMClassifier) (hm : m.cells ≠ [])
    (training : Bool) (masks : ℕ → ℕ → Bool) (batch : List (List (List ℚ)))
    (x2 : List (List ℚ)) :
    (lstmForward training masks m (.dim3 batch)).length = batch.length
    ∧ (∀ b, b < batch.length →
        (lstmForward training masks m (.dim3 batch)).getD b []
          = headForward training (masks b) m.head
              (lastLayerFinalHidden m.hiddenSize m.cells (batch.getD b [])))
    ∧ lstmForward training masks m (.dim2 x2)
        = lstmForward training masks m (.dim3 (x2.map (fun v => [v]))) := by
  have hlast := stackBatch_snd_getLast m.hiddenSize m.cells hm batch
  have hLH : (((lstmStackBatch m.hiddenSize m.cells batch).2.getLast?).getD
        ([] : List (List ℚ)))
      = batch.map (lastLayerFinalHidden m.hiddenSize m.cells) := by
    rw [hlast]
    rfl
  refine ⟨?_, ?_, rfl⟩
  · show (((((lstmStackBatch m.hiddenSize m.cells batch).2.getLast?).getD
        []).enum).map
          (fun bh => headForward training (masks bh.1) m.head bh.2)).length
      = batch.length
    rw [hLH, List.length_map, List.enum_length, List.length_map]
  · intro b hb
    show (((((lstmStackBatch m.hiddenSize m.cells batch).2.getLast?).getD
        []).enum).map
          (fun bh => headForward training (masks bh.1) m.head bh.2)).getD b []
      = _
    rw [hLH]
    have hbm : b < (batch.map
        (lastLayerFinalHidden m.hiddenSize m.cells)).length := by
      simpa using hb
    rw [List.getD_eq_getElem?_getD, List.getElem?_map, List.getElem?_enum,
      List.getElem?_eq_getElem hbm, List.getElem_map,
      List.getD_eq_getElem batch [] hb]
    rfl

/-- Witness for C8 at a concrete one-layer classifier, a two-element 3-D
batch with different sequence lengths, and a 2-D batch. -/
theorem lstm_forward_one_per_batch_witness :
    (lstmForward false (fun _ _ => false) demoLSTM
        (.dim3 [[[2], [3]], [[5]]])).length
      = ([[[2], [3]], [[5]]] : List (List (List ℚ))).length
    ∧ (∀ b, b < ([[[2], [3]], [[5]]] : List (List (List ℚ))).length →
        (lstmForward false (fun _ _ => false) demoLSTM
            (.dim3 [[[2], [3]], [[5]]])).getD b []
          = headForward false ((fun _ _ => false) b) demoLSTM.head
              (lastLayerFinalHidden demoLSTM.hiddenSize demoLSTM.cells
                (([[[2], [3]], [[5]]] : List (List (List ℚ))).getD b [])))
    ∧ lstmForward false (fun _ _ => false) demoLSTM (.dim2 [[7]])
        = lstmForward false (fun _ _ => false) demoLSTM
            (.dim3 (([[7]] : List (List ℚ)).map (fun v => [v]))) :=
  lstm_forward_one_per_batch demoLSTM (List.cons_ne_nil _ _) false
    (fun _ _ => false) [[[2], [3]], [[5]]] [[7]]

end ASL
